import Mathlib

/-!
Shallow embedding of `src/convert_pdf.updated.py` (PDF → Markdown converter).

Modelling conventions:
* Python floats (page coordinates) are embedded as rationals `ℚ`.
* The external collaborators (PyMuPDF's `Page.find_tables` detector and
  pymupdf4llm's `to_markdown` renderer) are black boxes; a `Page` carries its
  detector as a function, and the renderer is passed to the conversion
  orchestrators as a function argument.  Python exceptions raised by a
  collaborator are embedded as `Except` error values.
* Filesystem effects are made explicit: the existence check becomes a boolean
  input, and functions return the file names and contents they would write
  instead of writing them.
-/

namespace ConvertPdf

/-- Rational subtraction, written out on the `num`/`den` representation
(the closed form proved by `Rat.sub_def'`) so that the kernel can evaluate
it on concrete inputs; equals `a - b` (see `ratSub_eq`). -/
def ratSub (a b : ℚ) : ℚ :=
  mkRat (a.num * b.den - b.num * a.den) (a.den * b.den)

/-- Python's `abs` on our rational embedding of floats; equals `|q|`
(see `ratAbs_eq`). -/
def ratAbs (q : ℚ) : ℚ :=
  if q < 0 then Rat.neg q else q

/-- Python's `str.lower()`, character-wise (the script only lowercases
file extensions, which are ASCII). -/
def py_lower (s : String) : String :=
  String.mk (s.toList.map Char.toLower)

/-- Python's `str.strip()`: drop leading and trailing whitespace. -/
def py_strip (s : String) : String :=
  String.mk (((s.toList.dropWhile Char.isWhitespace).reverse.dropWhile
    Char.isWhitespace).reverse)

/-- Python's `str.rstrip()`: drop trailing whitespace. -/
def py_rstrip (s : String) : String :=
  String.mk ((s.toList.reverse.dropWhile Char.isWhitespace).reverse)

/-- A bounding box `(x0, y0, x1, y1)` of a detected table, in page
coordinates.  Embeds the Python 4-tuple of floats. -/
structure BBox where
  x0 : ℚ
  y0 : ℚ
  x1 : ℚ
  y1 : ℚ
deriving DecidableEq, Repr

/-- One coordinate-wise comparison of the deduplicator: `b` is a near
duplicate of `a` when all four absolute coordinate differences are `< 2`.
This is the loop body of `_dedupe_bboxes`, split out as an observer. -/
def nearDup (b a : BBox) : Bool :=
  decide (ratAbs (ratSub b.x0 a.x0) < 2) && decide (ratAbs (ratSub b.y0 a.y0) < 2) &&
    decide (ratAbs (ratSub b.x1 a.x1) < 2) && decide (ratAbs (ratSub b.y1 a.y1) < 2)

/-- Embeds `_dedupe_bboxes(bboxes, bbox)`: return `true` if `bbox` is
(almost) already in `bboxes`. -/
def dedupe_bboxes (bboxes : List BBox) (bbox : BBox) : Bool :=
  bboxes.any fun b =>
    decide (ratAbs (ratSub bbox.x0 b.x0) < 2) && decide (ratAbs (ratSub bbox.y0 b.y0) < 2) &&
      decide (ratAbs (ratSub bbox.x1 b.x1) < 2) && decide (ratAbs (ratSub bbox.y1 b.y1) < 2)

deriving instance DecidableEq for Except

/-- A detected table, as returned by the external detector.  `to_markdown`
is the (deterministic) result of `t.to_markdown(clean=False, fill_empty=True)`:
`.ok s` for a successful render, `.error e` when the renderer raises `e`. -/
structure Table where
  bbox : BBox
  row_count : Nat
  col_count : Nat
  to_markdown : Except String String
deriving DecidableEq, Repr

/-- A page of an open document.  Its only capability used by the script is
`find_tables(strategy, min_words_vertical?, min_words_horizontal?)`, which
either raises (`.error`, carrying the exception message) or returns the
detected tables in emission order. -/
structure Page where
  find_tables : String → Option Nat → Option Nat → Except String (List Table)

/-- A page whose detector always raises; stands in for the `IndexError` a
Python out-of-range `doc[pno]` would produce (never reached on the page
ranges the script builds). -/
def defaultPage : Page :=
  ⟨fun _ _ _ => .error "index out of range"⟩

/-- An open `pymupdf.Document`: its ordered pages. -/
structure Document where
  pages : List Page

/-- Embeds `doc.page_count`. -/
def Document.page_count (d : Document) : Nat :=
  d.pages.length

/-- Embeds the subscript `doc[pno]`. -/
def Document.page (d : Document) (pno : Nat) : Page :=
  d.pages.getD pno defaultPage

/-- The fixed strategy list of `extract_tables_markdown`:
`(strategy name, min_words_vertical, min_words_horizontal)`, where `none`
means the keyword argument is not passed. -/
def strategies : List (String × Option Nat × Option Nat) :=
  [("lines_strict", none, none), ("lines", none, none), ("text", some 3, some 1)]

/-- The inner `for t in tf.tables` loop: filter degenerate tables, skip
near-duplicates, otherwise record the bbox and accept the table tagged with
its strategy.  State is `(seen_bboxes, page_tables)`. -/
def accept_tables (strat : String) (ts : List Table)
    (seen : List BBox) (page_tables : List (String × Table)) :
    List BBox × List (String × Table) :=
  match ts with
  | [] => (seen, page_tables)
  | t :: rest =>
    if t.row_count < 2 || t.col_count < 2 then
      accept_tables strat rest seen page_tables
    else if dedupe_bboxes seen t.bbox then
      accept_tables strat rest seen page_tables
    else
      accept_tables strat rest (seen ++ [t.bbox]) (page_tables ++ [(strat, t)])

/-- The `for strat, extra_kwargs in strategies` loop: call the detector; on
an exception `continue` to the next strategy, otherwise fold the returned
tables through `accept_tables`. -/
def run_strategies (page : Page) (strats : List (String × Option Nat × Option Nat))
    (seen : List BBox) (page_tables : List (String × Table)) :
    List BBox × List (String × Table) :=
  match strats with
  | [] => (seen, page_tables)
  | (strat, mv, mh) :: rest =>
    match page.find_tables strat mv mh with
    | .error _ => run_strategies page rest seen page_tables
    | .ok ts =>
      let st := accept_tables strat ts seen page_tables
      run_strategies page rest st.1 st.2

/-- The Markdown lines emitted for one accepted table: its `### Table i`
header, the rendered body (or the inline failure note when `to_markdown`
raises), and a blank line. -/
def render_table (i : Nat) (strat : String) (t : Table) : List String :=
  ["### Table " ++ toString i ++ " (strategy=" ++ strat ++ ", rows=" ++
      toString t.row_count ++ ", cols=" ++ toString t.col_count ++ ")",
    (match t.to_markdown with
     | .ok s => py_strip s
     | .error e => "_Failed to export table to markdown: " ++ e ++ "_"),
    ""]

/-- The `for i, (strat, t) in enumerate(page_tables, start=1)` output loop. -/
def render_page_tables (i : Nat) (pts : List (String × Table)) : List String :=
  match pts with
  | [] => []
  | (strat, t) :: rest => render_table i strat t ++ render_page_tables (i + 1) rest

/-- The `for pno in pages_iter` loop of `extract_tables_markdown`.  Loop
state is `(out, seen_bboxes)`; `seen_bboxes` is threaded across pages,
`page_tables` restarts empty on each page.  Pages with no accepted table
contribute nothing to `out`. -/
def process_pages (doc : Document) (pnos : List Nat)
    (seen : List BBox) (out : List String) : List String × List BBox :=
  match pnos with
  | [] => (out, seen)
  | pno :: rest =>
    let st := run_strategies (doc.page pno) strategies seen []
    if st.2 = [] then
      process_pages doc rest st.1 out
    else
      process_pages doc rest st.1
        (out ++ ("## Page " ++ toString (pno + 1)) :: render_page_tables 1 st.2)

/-- Embeds `extract_tables_markdown(doc, page_numbers_0_based=...)`. -/
def extract_tables_markdown (doc : Document)
    (page_numbers_0_based : Option (List Nat) := none) : String :=
  let pages_iter := page_numbers_0_based.getD (List.range doc.page_count)
  let out := (process_pages doc pages_iter [] []).1
  if out = [] then ""
  else
    py_strip (String.intercalate "\n"
        ("# Extracted tables (PyMuPDF Page.find_tables)" :: "" :: out)) ++ "\n"

/-! ### Path handling (`pathlib.Path` semantics, restricted to `/`-separated
string paths as the CLI receives them) -/

/-- Embeds `Path(p).name`: the final path component (the characters after
the last `/`). -/
def path_name (p : String) : String :=
  String.mk ((p.toList.reverse.takeWhile fun c => c ≠ '/').reverse)

/-- Index of the last `.` in a list of characters, if any. -/
def lastDotIdx (cs : List Char) : Option Nat :=
  ((cs.enum.filter fun ic => ic.2 = '.').map fun ic => ic.1).getLast?

/-- Embeds `Path(p).suffix`: the extension of the final component, dot
included; empty when the name has no dot, starts with its only dot, or ends
with the dot (CPython: `name[i:]` when `0 < i < len(name) - 1`). -/
def path_suffix (p : String) : String :=
  let cs := (path_name p).toList
  match lastDotIdx cs with
  | none => ""
  | some i => if 0 < i ∧ i < cs.length - 1 then String.mk (cs.drop i) else ""

/-- Embeds `Path(p).stem`: the final component with its suffix removed. -/
def path_stem (p : String) : String :=
  let cs := (path_name p).toList
  String.mk (cs.take (cs.length - (path_suffix p).toList.length))

/-- Embeds Python's `f"{n:03d}"`: decimal, zero-padded on the left to at
least three digits. -/
def pad3 (n : Nat) : String :=
  let s := toString n
  String.mk (List.replicate (3 - s.length) '0') ++ s

/-- The keyword-argument bundle `_p4llm_kwargs` builds for
`pymupdf4llm.to_markdown`. -/
structure P4llmKwargs where
  page_chunks : Bool
  write_images : Bool
  embed_images : Bool
  force_text : Bool
  use_ocr : Bool
  ocr_dpi : Nat
  header : Bool
  footer : Bool
  page_separators : Bool
  show_progress : Bool
  fontsize_limit : Nat
  table_strategy : String
deriving DecidableEq, Repr

/-- Embeds `_p4llm_kwargs(page_chunks=..., use_ocr=..., header=..., footer=...)`. -/
def p4llm_kwargs (page_chunks use_ocr header footer : Bool) : P4llmKwargs :=
  { page_chunks := page_chunks
    write_images := false
    embed_images := false
    force_text := true
    use_ocr := use_ocr
    ocr_dpi := 400
    header := header
    footer := footer
    page_separators := true
    show_progress := true
    fontsize_limit := 0
    table_strategy := "lines_strict" }

/-- The two input-validation exceptions the script raises itself:
`FileNotFoundError` and the `ValueError` for a non-`.pdf` extension. -/
inductive ConvError where
  | fileNotFound (path : String)
  | notAPdf (path : String)
deriving DecidableEq, Repr

/-- One page record of `pymupdf4llm.to_markdown(..., page_chunks=True)`;
the script reads `page_dict.get("text", "")`, so the `text` key may be
absent (`none`). -/
structure PageRecord where
  text : Option String
deriving DecidableEq, Repr

/-- Embeds `convert_pdf_to_markdown(pdf_path, output_path, *, use_ocr,
header, footer, include_tables)`.  `file_exists` is the result of
`Path(pdf_path).exists()`, `doc` the document `pymupdf.open` yields, and
`to_markdown` the external renderer.  Returns the output file path and the
text written to it. -/
def convert_pdf_to_markdown (file_exists : Bool) (pdf_path : String)
    (output_path : Option String) (doc : Document)
    (to_markdown : Document → P4llmKwargs → String)
    (use_ocr header footer include_tables : Bool) :
    Except ConvError (String × String) :=
  if file_exists = false then .error (.fileNotFound pdf_path)
  else if py_lower (path_suffix pdf_path) ≠ ".pdf" then .error (.notAPdf pdf_path)
  else
    let md_text := to_markdown doc (p4llm_kwargs false use_ocr header footer)
    let md_text :=
      if include_tables then
        let tables_md := extract_tables_markdown doc
        if tables_md ≠ "" then py_rstrip md_text ++ "\n\n" ++ tables_md ++ "\n"
        else md_text
      else md_text
    let md_file := output_path.getD (path_stem pdf_path ++ ".md")
    .ok (md_file, md_text)

/-- What `convert_with_page_chunks` leaves on disk: the name of the created
directory (`Path(pdf_path).parent / output_dir_name`) and, in order, the
`(file name, contents)` pairs written inside it. -/
structure ChunkOutput where
  output_dir_name : String
  files : List (String × String)
deriving DecidableEq, Repr

/-- The body of the per-page loop of `convert_with_page_chunks`: the text
written to `page_{i+1:03d}.md` for the `i`-th page record. -/
def chunk_page_text (doc : Document) (include_tables : Bool)
    (i : Nat) (page_dict : PageRecord) : String :=
  let page_text := page_dict.text.getD ""
  if include_tables then
    let page_tables := py_strip (extract_tables_markdown doc (some [i]))
    if page_tables ≠ "" then py_rstrip page_text ++ "\n\n" ++ page_tables ++ "\n"
    else page_text
  else page_text

/-- Embeds `convert_with_page_chunks(pdf_path, *, use_ocr, header, footer,
include_tables)`.  Note: unlike `convert_pdf_to_markdown`, the source checks
only existence of the path, not its extension. -/
def convert_with_page_chunks (file_exists : Bool) (pdf_path : String)
    (doc : Document)
    (to_markdown : Document → P4llmKwargs → List PageRecord)
    (use_ocr header footer include_tables : Bool) :
    Except ConvError ChunkOutput :=
  if file_exists = false then .error (.fileNotFound pdf_path)
  else
    let pages_data := to_markdown doc (p4llm_kwargs true use_ocr header footer)
    let files := pages_data.enum.map fun ip =>
      ("page_" ++ pad3 (ip.1 + 1) ++ ".md",
        chunk_page_text doc include_tables ip.1 ip.2)
    .ok { output_dir_name := path_stem pdf_path ++ "_pages", files := files }

/-- One iteration of the strategy loop, as a function of the loop state:
call the detector for strategy `s`; on an exception keep the state, else
fold the returned tables through `accept_tables`.  Used to state that
`run_strategies` tries the three strategies in their fixed priority order. -/
def try_strategy (page : Page) (s : String × Option Nat × Option Nat)
    (st : List BBox × List (String × Table)) :
    List BBox × List (String × Table) :=
  match page.find_tables s.1 s.2.1 s.2.2 with
  | .error _ => st
  | .ok ts => accept_tables s.1 ts st.1 st.2

/-! ### Concrete instances used to exercise the theorems -/

/-- A degenerate detection: one row, five columns. -/
def Wtbl_deg : Table :=
  ⟨⟨0, 0, 1, 1⟩, 1, 5, .ok "x"⟩

/-- A page on which every strategy emits only the degenerate table. -/
def Wpage_deg : Page :=
  ⟨fun _ _ _ => .ok [Wtbl_deg]⟩

/-- A page whose detector raises for `lines_strict` and finds nothing
otherwise. -/
def Wpage_fail : Page :=
  ⟨fun s _ _ => if s = "lines_strict" then .error "unsupported page" else .ok []⟩

/-- A page on which every strategy finds nothing. -/
def Wpage_none : Page :=
  ⟨fun _ _ _ => .ok []⟩

/-- A one-page document with no tables anywhere. -/
def Wdoc_none : Document :=
  ⟨[Wpage_none]⟩

/-- A 2×2 table detected on the first page of `Wdoc_ab`. -/
def Wtbl_a : Table :=
  ⟨⟨0, 0, 10, 10⟩, 2, 2, .ok "|a|"⟩

/-- A table on the second page of `Wdoc_ab` whose rectangle differs from
`Wtbl_a`'s by 1 on one coordinate only. -/
def Wtbl_b : Table :=
  ⟨⟨1, 0, 10, 10⟩, 3, 3, .ok "|b|"⟩

/-- First page of `Wdoc_ab`: `lines_strict` finds `Wtbl_a`. -/
def Wpage_a : Page :=
  ⟨fun s _ _ => if s = "lines_strict" then .ok [Wtbl_a] else .ok []⟩

/-- Second page of `Wdoc_ab`: `lines_strict` finds `Wtbl_b`. -/
def Wpage_b : Page :=
  ⟨fun s _ _ => if s = "lines_strict" then .ok [Wtbl_b] else .ok []⟩

/-- A two-page document whose pages carry near-duplicate tables. -/
def Wdoc_ab : Document :=
  ⟨[Wpage_a, Wpage_b]⟩

/-- A whole-document renderer returning a fixed body. -/
def Wrender : Document → P4llmKwargs → String :=
  fun _ _ => "BODY"

/-- A chunked renderer returning two page records, the second lacking a
`text` key. -/
def Wchunks : Document → P4llmKwargs → List PageRecord :=
  fun _ _ => [⟨some "hello"⟩, ⟨none⟩]

/-- A chunked renderer returning no page records. -/
def Wchunks_empty : Document → P4llmKwargs → List PageRecord :=
  fun _ _ => []

/-- A two-page document with no tables anywhere. -/
def Wdoc_none2 : Document :=
  ⟨[Wpage_none, Wpage_none]⟩

/-- The chunk layout produced by `convert_with_page_chunks` on `Wdoc_none2`
with renderer `Wchunks` and input `doc.pdf`. -/
def Wchunk_result : ChunkOutput :=
  ⟨"doc_pages", [("page_001.md", "hello"), ("page_002.md", "")]⟩

/-! ### Basic lemmas about the arithmetic embedding and the deduplicator -/

theorem ratSub_eq (a b : ℚ) : ratSub a b = a - b :=
  (Rat.sub_def' a b).symm

theorem ratAbs_eq (q : ℚ) : ratAbs q = |q| := by
  by_cases h : q < 0
  · rw [ratAbs, if_pos h, abs_of_neg h]; rfl
  · rw [ratAbs, if_neg h, abs_of_nonneg (le_of_not_lt h)]

theorem ratAbs_ratSub_eq (a b : ℚ) : ratAbs (ratSub a b) = |a - b| := by
  rw [ratSub_eq, ratAbs_eq]

theorem nearDup_true_iff (b a : BBox) :
    nearDup b a = true ↔
      |b.x0 - a.x0| < 2 ∧ |b.y0 - a.y0| < 2 ∧ |b.x1 - a.x1| < 2 ∧ |b.y1 - a.y1| < 2 := by
  simp [nearDup, ratAbs_ratSub_eq, and_assoc]

theorem dedupe_bboxes_eq_any (bboxes : List BBox) (bbox : BBox) :
    dedupe_bboxes bboxes bbox = bboxes.any (nearDup bbox) :=
  rfl

theorem dedupe_bboxes_spec (bboxes : List BBox) (bbox : BBox) :
    dedupe_bboxes bboxes bbox = true ↔
      ∃ b ∈ bboxes, |bbox.x0 - b.x0| < 2 ∧ |bbox.y0 - b.y0| < 2 ∧
        |bbox.x1 - b.x1| < 2 ∧ |bbox.y1 - b.y1| < 2 := by
  rw [dedupe_bboxes_eq_any, List.any_eq_true]
  exact exists_congr fun b => and_congr_right fun _ => nearDup_true_iff bbox b

theorem nearDup_symm (a b : BBox) : nearDup a b = nearDup b a := by
  have h : (nearDup a b = true) ↔ (nearDup b a = true) := by
    rw [nearDup_true_iff, nearDup_true_iff, abs_sub_comm a.x0 b.x0,
      abs_sub_comm a.y0 b.y0, abs_sub_comm a.x1 b.x1, abs_sub_comm a.y1 b.y1]
  rcases hab : nearDup a b <;> rcases hba : nearDup b a <;>
    simp only [hab, hba] at h ⊢ <;> simp at h

theorem dedupe_bboxes_false_of_mem (bboxes : List BBox) (bbox b : BBox)
    (hd : dedupe_bboxes bboxes bbox = false) (hb : b ∈ bboxes) :
    nearDup bbox b = false := by
  rw [dedupe_bboxes_eq_any, List.any_eq_false] at hd
  exact Bool.eq_false_iff.mpr (hd b hb)

theorem dedupe_bboxes_false_mono (s s' : List BBox) (bbox : BBox)
    (hsub : ∀ b ∈ s, b ∈ s') (hd : dedupe_bboxes s' bbox = false) :
    dedupe_bboxes s bbox = false := by
  rw [dedupe_bboxes_eq_any, List.any_eq_false] at hd ⊢
  exact fun b hb => hd b (hsub b hb)

/-- C1: `_dedupe_bboxes(bboxes, bbox)` returns `true` iff some rectangle in
`bboxes` is within the fixed tolerance of `bbox` on all four coordinates
(absolute difference strictly below 2); a difference of exactly 2 on a
coordinate does not make `bbox` a duplicate. -/
theorem dedupe_bboxes_correct :
    (∀ (bboxes : List BBox) (bbox : BBox),
      dedupe_bboxes bboxes bbox = true ↔
        ∃ b ∈ bboxes, |bbox.x0 - b.x0| < 2 ∧ |bbox.y0 - b.y0| < 2 ∧
          |bbox.x1 - b.x1| < 2 ∧ |bbox.y1 - b.y1| < 2) ∧
    dedupe_bboxes [⟨0, 0, 0, 0⟩] ⟨2, 0, 0, 0⟩ = false :=
  ⟨dedupe_bboxes_spec, by decide⟩

/-! ### Invariants of the acceptance loops -/

theorem accept_tables_seen_mono (strat : String) (ts : List Table)
    (seen : List BBox) (pts : List (String × Table)) :
    ∀ b ∈ seen, b ∈ (accept_tables strat ts seen pts).1 := by
  induction ts generalizing seen pts with
  | nil => exact fun b hb => hb
  | cons t rest ih =>
    intro b hb
    rw [accept_tables]
    by_cases h1 : t.row_count < 2 || t.col_count < 2
    · rw [if_pos h1]; exact ih seen pts b hb
    · rw [if_neg h1]
      by_cases h2 : dedupe_bboxes seen t.bbox
      · rw [if_pos h2]; exact ih seen pts b hb
      · rw [if_neg h2]
        exact ih (seen ++ [t.bbox]) (pts ++ [(strat, t)]) b (List.mem_append_left _ hb)

theorem accept_tables_pts_mono (strat : String) (ts : List Table)
    (seen : List BBox) (pts : List (String × Table)) :
    ∀ p ∈ pts, p ∈ (accept_tables strat ts seen pts).2 := by
  induction ts generalizing seen pts with
  | nil => exact fun p hp => hp
  | cons t rest ih =>
    intro p hp
    rw [accept_tables]
    by_cases h1 : t.row_count < 2 || t.col_count < 2
    · rw [if_pos h1]; exact ih seen pts p hp
    · rw [if_neg h1]
      by_cases h2 : dedupe_bboxes seen t.bbox
      · rw [if_pos h2]; exact ih seen pts p hp
      · rw [if_neg h2]
        exact ih (seen ++ [t.bbox]) (pts ++ [(strat, t)]) p (List.mem_append_left _ hp)

/-- Any pair in the output of `accept_tables` was either already accepted, or
is a freshly accepted table: tagged with the current strategy, non-degenerate,
and not a near duplicate of anything in the incoming `seen` list. -/
theorem accept_tables_mem (strat : String) (ts : List Table)
    (seen : List BBox) (pts : List (String × Table)) :
    ∀ p ∈ (accept_tables strat ts seen pts).2,
      p ∈ pts ∨ (p.1 = strat ∧ 2 ≤ p.2.row_count ∧ 2 ≤ p.2.col_count ∧
        dedupe_bboxes seen p.2.bbox = false) := by
  induction ts generalizing seen pts with
  | nil => exact fun p hp => Or.inl hp
  | cons t rest ih =>
    intro p hp
    rw [accept_tables] at hp
    by_cases h1 : t.row_count < 2 || t.col_count < 2
    · rw [if_pos h1] at hp; exact ih seen pts p hp
    · rw [if_neg h1] at hp
      by_cases h2 : dedupe_bboxes seen t.bbox
      · rw [if_pos h2] at hp; exact ih seen pts p hp
      · rw [if_neg h2] at hp
        have hnd : ¬(t.row_count < 2) ∧ ¬(t.col_count < 2) := by
          constructor <;> intro hc <;> apply h1 <;> simp [hc]
        rcases ih (seen ++ [t.bbox]) (pts ++ [(strat, t)]) p hp with hold | hnew
        · rcases List.mem_append.mp hold with hl | hr
          · exact Or.inl hl
          · have hp2 : p = (strat, t) := List.mem_singleton.mp hr
            subst hp2
            exact Or.inr ⟨rfl, Nat.le_of_not_lt hnd.1, Nat.le_of_not_lt hnd.2,
              Bool.eq_false_iff.mpr h2⟩
        · refine Or.inr ⟨hnew.1, hnew.2.1, hnew.2.2.1, ?_⟩
          exact dedupe_bboxes_false_mono _ _ _ (fun b hb => List.mem_append_left _ hb)
            hnew.2.2.2

/-- Every table accepted by `accept_tables` has its bounding box recorded in
the resulting `seen` list. -/
theorem accept_tables_bbox_seen (strat : String) (ts : List Table)
    (seen : List BBox) (pts : List (String × Table))
    (hpre : ∀ p ∈ pts, p.2.bbox ∈ seen) :
    ∀ p ∈ (accept_tables strat ts seen pts).2,
      p.2.bbox ∈ (accept_tables strat ts seen pts).1 := by
  induction ts generalizing seen pts with
  | nil => exact fun p hp => hpre p hp
  | cons t rest ih =>
    intro p hp
    rw [accept_tables] at hp ⊢
    by_cases h1 : t.row_count < 2 || t.col_count < 2
    · rw [if_pos h1] at hp ⊢; exact ih seen pts hpre p hp
    · rw [if_neg h1] at hp ⊢
      by_cases h2 : dedupe_bboxes seen t.bbox
      · rw [if_pos h2] at hp ⊢; exact ih seen pts hpre p hp
      · rw [if_neg h2] at hp ⊢
        refine ih (seen ++ [t.bbox]) (pts ++ [(strat, t)]) ?_ p hp
        intro q hq
        rcases List.mem_append.mp hq with hl | hr
        · exact List.mem_append_left _ (hpre q hl)
        · have hq2 : q = (strat, t) := List.mem_singleton.mp hr
          subst hq2
          exact List.mem_append_right _ (List.mem_singleton.mpr rfl)

/-- `accept_tables` preserves the no-near-duplicates invariant of the
accepted list, given that every already-accepted bounding box is in `seen`. -/
theorem accept_tables_pairwise (strat : String) (ts : List Table)
    (seen : List BBox) (pts : List (String × Table))
    (hpre : ∀ p ∈ pts, p.2.bbox ∈ seen)
    (hpw : List.Pairwise (fun p q => nearDup p.2.bbox q.2.bbox = false) pts) :
    List.Pairwise (fun p q => nearDup p.2.bbox q.2.bbox = false)
      (accept_tables strat ts seen pts).2 := by
  induction ts generalizing seen pts with
  | nil => exact hpw
  | cons t rest ih =>
    rw [accept_tables]
    by_cases h1 : t.row_count < 2 || t.col_count < 2
    · rw [if_pos h1]; exact ih seen pts hpre hpw
    · rw [if_neg h1]
      by_cases h2 : dedupe_bboxes seen t.bbox
      · rw [if_pos h2]; exact ih seen pts hpre hpw
      · rw [if_neg h2]
        refine ih (seen ++ [t.bbox]) (pts ++ [(strat, t)]) ?_ ?_
        · intro q hq
          rcases List.mem_append.mp hq with hl | hr
          · exact List.mem_append_left _ (hpre q hl)
          · have hq2 : q = (strat, t) := List.mem_singleton.mp hr
            subst hq2
            exact List.mem_append_right _ (List.mem_singleton.mpr rfl)
        · rw [List.pairwise_append]
          refine ⟨hpw, List.pairwise_singleton _ _, ?_⟩
          intro q hq r hr
          have hr2 : r = (strat, t) := List.mem_singleton.mp hr
          subst hr2
          have hq3 : nearDup t.bbox q.2.bbox = false :=
            dedupe_bboxes_false_of_mem seen t.bbox q.2.bbox
              (Bool.eq_false_iff.mpr h2) (hpre q hq)
          rw [nearDup_symm]
          exact hq3

theorem run_strategies_seen_mono (page : Page)
    (strats : List (String × Option Nat × Option Nat))
    (seen : List BBox) (pts : List (String × Table)) :
    ∀ b ∈ seen, b ∈ (run_strategies page strats seen pts).1 := by
  induction strats generalizing seen pts with
  | nil => exact fun b hb => hb
  | cons s rest ih =>
    obtain ⟨strat, mv, mh⟩ := s
    intro b hb
    rw [run_strategies]
    rcases hft : page.find_tables strat mv mh with e | ts
    · exact ih seen pts b hb
    · exact ih _ _ b (accept_tables_seen_mono strat ts seen pts b hb)

theorem run_strategies_mem (page : Page)
    (strats : List (String × Option Nat × Option Nat))
    (seen : List BBox) (pts : List (String × Table)) :
    ∀ p ∈ (run_strategies page strats seen pts).2,
      p ∈ pts ∨ (2 ≤ p.2.row_count ∧ 2 ≤ p.2.col_count ∧
        dedupe_bboxes seen p.2.bbox = false) := by
  induction strats generalizing seen pts with
  | nil => exact fun p hp => Or.inl hp
  | cons s rest ih =>
    obtain ⟨strat, mv, mh⟩ := s
    intro p hp
    rw [run_strategies] at hp
    rcases hft : page.find_tables strat mv mh with e | ts
    · rw [hft] at hp
      exact ih seen pts p hp
    · rw [hft] at hp
      rcases ih _ _ p hp with hin | hnew
      · rcases accept_tables_mem strat ts seen pts p hin with hold | hfresh
        · exact Or.inl hold
        · exact Or.inr ⟨hfresh.2.1, hfresh.2.2.1, hfresh.2.2.2⟩
      · refine Or.inr ⟨hnew.1, hnew.2.1, ?_⟩
        exact dedupe_bboxes_false_mono _ _ _
          (accept_tables_seen_mono strat ts seen pts) hnew.2.2

theorem run_strategies_bbox_seen (page : Page)
    (strats : List (String × Option Nat × Option Nat))
    (seen : List BBox) (pts : List (String × Table))
    (hpre : ∀ p ∈ pts, p.2.bbox ∈ seen) :
    ∀ p ∈ (run_strategies page strats seen pts).2,
      p.2.bbox ∈ (run_strategies page strats seen pts).1 := by
  induction strats generalizing seen pts with
  | nil => exact fun p hp => hpre p hp
  | cons s rest ih =>
    obtain ⟨strat, mv, mh⟩ := s
    intro p hp
    rw [run_strategies] at hp ⊢
    rcases hft : page.find_tables strat mv mh with e | ts
    · rw [hft] at hp; exact ih seen pts hpre p hp
    · rw [hft] at hp
      exact ih _ _ (accept_tables_bbox_seen strat ts seen pts hpre) p hp

theorem run_strategies_pairwise (page : Page)
    (strats : List (String × Option Nat × Option Nat))
    (seen : List BBox) (pts : List (String × Table))
    (hpre : ∀ p ∈ pts, p.2.bbox ∈ seen)
    (hpw : List.Pairwise (fun p q => nearDup p.2.bbox q.2.bbox = false) pts) :
    List.Pairwise (fun p q => nearDup p.2.bbox q.2.bbox = false)
      (run_strategies page strats seen pts).2 := by
  induction strats generalizing seen pts with
  | nil => exact hpw
  | cons s rest ih =>
    obtain ⟨strat, mv, mh⟩ := s
    rw [run_strategies]
    rcases hft : page.find_tables strat mv mh with e | ts
    · exact ih seen pts hpre hpw
    · exact ih _ _ (accept_tables_bbox_seen strat ts seen pts hpre)
        (accept_tables_pairwise strat ts seen pts hpre hpw)

theorem process_pages_seen_mono (doc : Document) (pnos : List Nat)
    (seen : List BBox) (out : List String) :
    ∀ b ∈ seen, b ∈ (process_pages doc pnos seen out).2 := by
  induction pnos generalizing seen out with
  | nil => exact fun b hb => hb
  | cons pno rest ih =>
    intro b hb
    rw [process_pages]
    split
    · exact ih _ _ b (run_strategies_seen_mono (doc.page pno) strategies seen [] b hb)
    · exact ih _ _ b (run_strategies_seen_mono (doc.page pno) strategies seen [] b hb)

/-- C5: when `page.find_tables` raises for a strategy, the orchestrator
swallows the error and continues with the remaining strategies for the same
page, from an unchanged state; the failure never escapes
(`run_strategies` and `extract_tables_markdown` are total functions). -/
theorem strategy_failure_skipped (page : Page) (strat : String)
    (mv mh : Option Nat) (rest : List (String × Option Nat × Option Nat))
    (seen : List BBox) (pts : List (String × Table)) (e : String)
    (hft : page.find_tables strat mv mh = .error e) :
    run_strategies page ((strat, mv, mh) :: rest) seen pts =
      run_strategies page rest seen pts := by
  rw [run_strategies, hft]

/-- C5 witness: on `Wpage_fail`, whose detector raises for `lines_strict`,
processing skips to the remaining strategies. -/
theorem strategy_failure_skipped_witness :
    Wpage_fail.find_tables "lines_strict" none none = .error "unsupported page" ∧
    run_strategies Wpage_fail
        (("lines_strict", none, none) ::
          [("lines", none, none), ("text", some 3, some 1)]) [] [] =
      run_strategies Wpage_fail [("lines", none, none), ("text", some 3, some 1)] [] [] :=
  ⟨rfl, strategy_failure_skipped Wpage_fail "lines_strict" none none
    [("lines", none, none), ("text", some 3, some 1)] [] [] "unsupported page" rfl⟩

/-- C2: a table with fewer than 2 rows or fewer than 2 columns is never in
the accepted set a page contributes, whatever the document, page, strategy
outcome, or deduplication state reached so far. -/
theorem degenerate_table_never_accepted (page : Page)
    (strats : List (String × Option Nat × Option Nat)) (seen : List BBox)
    (strat : String) (t : Table)
    (hdeg : t.row_count < 2 ∨ t.col_count < 2) :
    (strat, t) ∉ (run_strategies page strats seen []).2 := by
  intro hmem
  rcases run_strategies_mem page strats seen [] (strat, t) hmem with hin | hok
  · exact absurd hin (List.not_mem_nil _)
  · rcases hdeg with h | h
    · exact absurd hok.1 (Nat.not_le_of_lt h)
    · exact absurd hok.2.1 (Nat.not_le_of_lt h)

/-- C2 witness: the degenerate table `Wtbl_deg` (1 row), emitted by every
strategy of `Wpage_deg`, is rejected. -/
theorem degenerate_table_never_accepted_witness :
    (Wtbl_deg.row_count < 2 ∨ Wtbl_deg.col_count < 2) ∧
    ("lines_strict", Wtbl_deg) ∉ (run_strategies Wpage_deg strategies [] []).2 :=
  ⟨Or.inl (by decide),
    degenerate_table_never_accepted Wpage_deg strategies [] "lines_strict" Wtbl_deg
      (Or.inl (by decide))⟩

/-- C8: the accepted set a page contributes, from any deduplication state,
contains no two tables with near-duplicate rectangles (all four coordinate
differences below the 2-unit tolerance) and only tables with at least 2
rows and 2 columns. -/
theorem accepted_set_invariant (page : Page) (seen : List BBox) :
    List.Pairwise (fun p q => nearDup p.2.bbox q.2.bbox = false)
      (run_strategies page strategies seen []).2 ∧
    ∀ p ∈ (run_strategies page strategies seen []).2,
      2 ≤ p.2.row_count ∧ 2 ≤ p.2.col_count := by
  constructor
  · exact run_strategies_pairwise page strategies seen []
      (fun p hp => absurd hp (List.not_mem_nil _)) List.Pairwise.nil
  · intro p hp
    rcases run_strategies_mem page strategies seen [] p hp with hin | hok
    · exact absurd hin (List.not_mem_nil _)
    · exact ⟨hok.1, hok.2.1⟩

/-- C10: the `seen_bboxes` list is threaded through the whole call, not
reset per page: if `p` was accepted on an earlier page (reached with
deduplication state `seen`), then after any sequence `mid` of intermediate
pages, a table whose rectangle is a near duplicate of `p`'s is not accepted
on a later page. -/
theorem seen_bboxes_shared_across_pages (doc : Document) (seen s1 : List BBox)
    (pts : List (String × Table)) (pno : Nat) (p : String × Table)
    (mid : List Nat) (out out2 : List String) (s2 : List BBox)
    (later : Nat) (q : String × Table)
    (h1 : run_strategies (doc.page pno) strategies seen [] = (s1, pts))
    (h2 : p ∈ pts)
    (h3 : process_pages doc mid s1 out = (out2, s2))
    (h4 : nearDup q.2.bbox p.2.bbox = true) :
    q ∉ (run_strategies (doc.page later) strategies s2 []).2 := by
  intro hmem
  have hbbox1 : p.2.bbox ∈ s1 := by
    have := run_strategies_bbox_seen (doc.page pno) strategies seen []
      (fun r hr => absurd hr (List.not_mem_nil _)) p (by rw [h1]; exact h2)
    rwa [h1] at this
  have hbbox2 : p.2.bbox ∈ s2 := by
    have := process_pages_seen_mono doc mid s1 out p.2.bbox hbbox1
    rwa [h3] at this
  rcases run_strategies_mem (doc.page later) strategies s2 [] q hmem with hin | hok
  · exact absurd hin (List.not_mem_nil _)
  · have hfalse : nearDup q.2.bbox p.2.bbox = false :=
      dedupe_bboxes_false_of_mem s2 q.2.bbox p.2.bbox hok.2.2 hbbox2
    rw [h4] at hfalse
    exact Bool.noConfusion hfalse

/-- C10 witness: in `Wdoc_ab`, the table accepted on page 0 blocks the
near-duplicate table found on page 1. -/
theorem seen_bboxes_shared_across_pages_witness :
    run_strategies (Wdoc_ab.page 0) strategies [] [] =
      ([⟨0, 0, 10, 10⟩], [("lines_strict", Wtbl_a)]) ∧
    ("lines_strict", Wtbl_a) ∈ [("lines_strict", Wtbl_a)] ∧
    process_pages Wdoc_ab [] [⟨0, 0, 10, 10⟩] [] = ([], [⟨0, 0, 10, 10⟩]) ∧
    nearDup Wtbl_b.bbox Wtbl_a.bbox = true ∧
    ("lines_strict", Wtbl_b) ∉
      (run_strategies (Wdoc_ab.page 1) strategies [⟨0, 0, 10, 10⟩] []).2 :=
  ⟨by decide, by decide, rfl, by decide,
    seen_bboxes_shared_across_pages Wdoc_ab [] [⟨0, 0, 10, 10⟩]
      [("lines_strict", Wtbl_a)] 0 ("lines_strict", Wtbl_a) [] [] []
      [⟨0, 0, 10, 10⟩] 1 ("lines_strict", Wtbl_b)
      (by decide) (by decide) rfl (by decide)⟩

theorem run_strategies_cons (page : Page) (s : String × Option Nat × Option Nat)
    (rest : List (String × Option Nat × Option Nat))
    (seen : List BBox) (pts : List (String × Table)) :
    run_strategies page (s :: rest) seen pts =
      run_strategies page rest (try_strategy page s (seen, pts)).1
        (try_strategy page s (seen, pts)).2 := by
  obtain ⟨strat, mv, mh⟩ := s
  rw [run_strategies]
  rcases hft : page.find_tables strat mv mh with e | ts <;>
    simp [try_strategy, hft]

theorem run_strategies_nil (page : Page) (seen : List BBox)
    (pts : List (String × Table)) :
    run_strategies page [] seen pts = (seen, pts) :=
  rfl

theorem render_page_tables_append (i : Nat) (pts : List (String × Table))
    (strat : String) (t : Table) :
    render_page_tables i (pts ++ [(strat, t)]) =
      render_page_tables i pts ++ render_table (i + pts.length) strat t := by
  induction pts generalizing i with
  | nil => simp [render_page_tables]
  | cons p rest ih =>
    obtain ⟨s2, t2⟩ := p
    rw [List.cons_append, render_page_tables, render_page_tables, ih (i + 1),
      List.append_assoc]
    have harith : i + 1 + rest.length = i + (rest.length + 1) := by omega
    rw [List.length_cons, harith]

/-- C3: the detector is invoked in the fixed priority order `lines_strict`,
`lines`, `text` (the latter with `min_words_vertical = 3` and
`min_words_horizontal = 1`), and a page's tables are listed in acceptance
order: appending a newly accepted table appends its rendering after all
earlier ones, with the next 1-based index. -/
theorem strategy_priority_order :
    strategies =
      [("lines_strict", none, none), ("lines", none, none), ("text", some 3, some 1)] ∧
    (∀ (page : Page) (seen : List BBox) (pts : List (String × Table)),
      run_strategies page strategies seen pts =
        try_strategy page ("text", some 3, some 1)
          (try_strategy page ("lines", none, none)
            (try_strategy page ("lines_strict", none, none) (seen, pts)))) ∧
    (∀ (i : Nat) (pts : List (String × Table)) (strat : String) (t : Table),
      render_page_tables i (pts ++ [(strat, t)]) =
        render_page_tables i pts ++ render_table (i + pts.length) strat t) := by
  refine ⟨rfl, ?_, render_page_tables_append⟩
  intro page seen pts
  rw [show strategies =
      [("lines_strict", none, none), ("lines", none, none), ("text", some 3, some 1)]
    from rfl]
  rw [run_strategies_cons, run_strategies_cons, run_strategies_cons,
    run_strategies_nil]

theorem process_pages_no_accept (doc : Document) (pnos : List Nat)
    (seen : List BBox) (out : List String)
    (hnone : ∀ pno seen', (run_strategies (doc.page pno) strategies seen' []).2 = []) :
    (process_pages doc pnos seen out).1 = out := by
  induction pnos generalizing seen out with
  | nil => rfl
  | cons pno rest ih =>
    rw [process_pages]
    simp only [hnone pno seen, if_pos]
    exact ih _ _

theorem extract_empty_of_no_accept (doc : Document)
    (hnone : ∀ pno seen', (run_strategies (doc.page pno) strategies seen' []).2 = []) :
    extract_tables_markdown doc none = "" := by
  rw [extract_tables_markdown]
  simp only [Option.getD_none, process_pages_no_accept doc _ [] [] hnone, if_pos]

/-- C6: on a document where no page yields an accepted table, table
extraction returns the empty string, and whole-document conversion with
tables enabled outputs exactly the bare rendered text, with nothing
appended. -/
theorem no_tables_bare_output (doc : Document) (pdf_path : String)
    (output_path : Option String) (render : Document → P4llmKwargs → String)
    (u h f : Bool)
    (hpdf : py_lower (path_suffix pdf_path) = ".pdf")
    (hnone : ∀ pno seen', (run_strategies (doc.page pno) strategies seen' []).2 = []) :
    extract_tables_markdown doc none = "" ∧
    convert_pdf_to_markdown true pdf_path output_path doc render u h f true =
      .ok (output_path.getD (path_stem pdf_path ++ ".md"),
        render doc (p4llm_kwargs false u h f)) := by
  have hext : extract_tables_markdown doc none = "" :=
    extract_empty_of_no_accept doc hnone
  refine ⟨hext, ?_⟩
  rw [convert_pdf_to_markdown]
  simp [hpdf, hext]

/-- C6 witness: on the table-free document `Wdoc_none`, extraction is empty
and conversion returns the renderer's text unchanged. -/
theorem no_tables_bare_output_witness :
    py_lower (path_suffix "a.pdf") = ".pdf" ∧
    extract_tables_markdown Wdoc_none none = "" ∧
    convert_pdf_to_markdown true "a.pdf" none Wdoc_none Wrender true true true true =
      .ok ("a.md", "BODY") := by
  have h := no_tables_bare_output Wdoc_none "a.pdf" none Wrender true true true
    (by decide) (fun pno seen' => by cases pno <;> rfl)
  exact ⟨by decide, h.1, h.2⟩

/-- C7: chunked conversion creates a directory named after the input stem
plus `_pages` and writes one file per page record returned by the renderer
(so exactly N files for an N-page document), the `i`-th named
`page_` + the 1-based index zero-padded to 3 digits + `.md` and containing
only that page's text plus (when tables are enabled) the tables extracted
from that page alone (`extract_tables_markdown doc (some [i])`). -/
theorem chunked_conversion_layout (pdf_path : String) (doc : Document)
    (rc : Document → P4llmKwargs → List PageRecord) (u h f inc : Bool)
    (r : ChunkOutput)
    (hr : convert_with_page_chunks true pdf_path doc rc u h f inc = .ok r) :
    r.output_dir_name = path_stem pdf_path ++ "_pages" ∧
    r.files.length = (rc doc (p4llm_kwargs true u h f)).length ∧
    ((rc doc (p4llm_kwargs true u h f)).length = doc.page_count →
      r.files.length = doc.page_count) ∧
    ∀ (i : Nat) (hi : i < r.files.length)
      (hi' : i < (rc doc (p4llm_kwargs true u h f)).length),
      (r.files.get ⟨i, hi⟩).1 = "page_" ++ pad3 (i + 1) ++ ".md" ∧
      (r.files.get ⟨i, hi⟩).2 =
        chunk_page_text doc inc i ((rc doc (p4llm_kwargs true u h f)).get ⟨i, hi'⟩) := by
  rw [convert_with_page_chunks] at hr
  simp only [Bool.true_eq_false, if_false, Except.ok.injEq] at hr
  subst hr
  refine ⟨rfl, by simp, fun hN => by simp [hN], ?_⟩
  intro i hi hi'
  constructor
  · simp [List.getElem_map, List.getElem_enum]
  · simp [List.getElem_map, List.getElem_enum]

/-- C7 witness: on a two-page document, chunked conversion writes
`page_001.md` and `page_002.md` with the corresponding per-page contents. -/
theorem chunked_conversion_layout_witness :
    convert_with_page_chunks true "doc.pdf" Wdoc_none2 Wchunks true true true true =
      .ok Wchunk_result ∧
    Wchunk_result.output_dir_name = path_stem "doc.pdf" ++ "_pages" ∧
    Wchunk_result.files.length =
      (Wchunks Wdoc_none2 (p4llm_kwargs true true true true)).length ∧
    (Wchunk_result.files.get ⟨0, by decide⟩).1 = "page_" ++ pad3 1 ++ ".md" ∧
    (Wchunk_result.files.get ⟨1, by decide⟩).1 = "page_" ++ pad3 2 ++ ".md" ∧
    (Wchunk_result.files.get ⟨0, by decide⟩).2 =
      chunk_page_text Wdoc_none2 true 0
        ((Wchunks Wdoc_none2 (p4llm_kwargs true true true true)).get ⟨0, by decide⟩) := by
  have h0 : convert_with_page_chunks true "doc.pdf" Wdoc_none2 Wchunks
      true true true true = .ok Wchunk_result := by decide
  have h := chunked_conversion_layout "doc.pdf" Wdoc_none2 Wchunks
    true true true true Wchunk_result h0
  exact ⟨h0, h.1, h.2.1,
    (h.2.2.2 0 (by decide) (by decide)).1,
    (h.2.2.2 1 (by decide) (by decide)).1,
    (h.2.2.2 0 (by decide) (by decide)).2⟩

/-- C9: whole-document conversion is deterministic: with the renderer and
detector embedded as fixed functions, two runs on the same input and
configuration produce identical results (it is a pure function of its
inputs). -/
theorem convert_deterministic (file_exists : Bool) (pdf_path : String)
    (output_path : Option String) (doc : Document)
    (render : Document → P4llmKwargs → String) (u h f inc : Bool) :
    convert_pdf_to_markdown file_exists pdf_path output_path doc render u h f inc =
      convert_pdf_to_markdown file_exists pdf_path output_path doc render u h f inc :=
  rfl

/-- C4 counterexample: chunked conversion on an existing path with a `.txt`
extension does not raise the "wrong type" error — it proceeds and succeeds,
because `convert_with_page_chunks` only checks existence. -/
theorem chunked_no_extension_check :
    convert_with_page_chunks true "doc.txt" Wdoc_none Wchunks_empty true true true true =
      .ok ⟨"doc_pages", []⟩ ∧
    convert_with_page_chunks true "doc.txt" Wdoc_none Wchunks_empty true true true true ≠
      .error (ConvError.notAPdf "doc.txt") :=
  ⟨by decide, by decide⟩

/-- C4 (amended): for any input path and any document, whole-document
conversion raises "not found" when the path does not exist and "wrong type"
when it exists with a non-`.pdf` (case-insensitive) extension; chunked
conversion raises only the "not found" error and performs no extension
check — when the path exists it always proceeds. -/
theorem path_validation_amended (path : String) (out : Option String)
    (doc : Document) (render : Document → P4llmKwargs → String)
    (rc : Document → P4llmKwargs → List PageRecord) (u h f inc : Bool) :
    convert_pdf_to_markdown false path out doc render u h f inc =
      .error (.fileNotFound path) ∧
    (py_lower (path_suffix path) ≠ ".pdf" →
      convert_pdf_to_markdown true path out doc render u h f inc =
        .error (.notAPdf path)) ∧
    convert_with_page_chunks false path doc rc u h f inc =
      .error (.fileNotFound path) ∧
    ∃ r, convert_with_page_chunks true path doc rc u h f inc = .ok r := by
  refine ⟨rfl, ?_, rfl, ⟨_, rfl⟩⟩
  intro hsuf
  rw [convert_pdf_to_markdown]
  simp [hsuf]

/-- C4 witness: behavior of both conversions on the paths `doc.txt`
(existing and not), instantiating the amended theorem. -/
theorem path_validation_amended_witness :
    py_lower (path_suffix "doc.txt") ≠ ".pdf" ∧
    convert_pdf_to_markdown false "doc.txt" none Wdoc_none Wrender true true true true =
      .error (.fileNotFound "doc.txt") ∧
    convert_pdf_to_markdown true "doc.txt" none Wdoc_none Wrender true true true true =
      .error (.notAPdf "doc.txt") ∧
    convert_with_page_chunks false "doc.txt" Wdoc_none Wchunks_empty true true true true =
      .error (.fileNotFound "doc.txt") ∧
    ∃ r, convert_with_page_chunks true "doc.txt" Wdoc_none Wchunks_empty
      true true true true = .ok r := by
  have h := path_validation_amended "doc.txt" none Wdoc_none Wrender Wchunks_empty
    true true true true
  exact ⟨by decide, h.1, h.2.1 (by decide), h.2.2.1, h.2.2.2⟩

end ConvertPdf
